import Mathlib

/-!
Verification of the kiroku-memory core against its specification.

The Python source is embedded shallowly:
* strings are Lean `String` (lists of characters); Python `str.lower` is
  modelled on the ASCII range by `lowerChar`, Python whitespace (`str.strip`,
  regex `\s`) by `isWsChar`;
* `None`-able fields are `Option`; UUIDs are `Nat`; timestamps are `Int`
  (day-granularity, as only differences of `.days` matter to the claims);
* Python `float` arithmetic is modelled by exact rationals `ℚ`; the single
  transcendental operation (`0.5 ** (age_days / half_life)` in
  `jobs/weekly.py`) is abstracted as an explicit function parameter `fpow`
  so that every definition stays executable;
* the per-request database state is a plain list of entity records, and each
  repository query from `db/repositories/postgres/*.py` becomes a pure
  function over that list.
-/

/-! ## Character-level model of Python string primitives
(`entity_resolution.py` uses `str.strip`, `str.lower` and `re.sub(r"\s+", " ")`). -/

/-- ASCII lowercasing of one character, as Python `str.lower` acts on the
alphabet occurring in this code base. -/
def lowerChar (c : Char) : Char :=
  if 'A' ≤ c ∧ c ≤ 'Z' then Char.ofNat (c.toNat + 32) else c

/-- Whitespace test matching Python's `str.strip` / regex `\s` on the ASCII
whitespace characters. -/
def isWsChar (c : Char) : Bool :=
  c == ' ' || c == '\t' || c == '\n' || c == '\r' || c == '\x0b' || c == '\x0c'

/-- `str.strip`: drop whitespace from both ends. -/
def stripList (l : List Char) : List Char :=
  ((l.dropWhile isWsChar).reverse.dropWhile isWsChar).reverse

/-- Worker for `re.sub(r"\s+", " ", text)`: `prevWs` records whether the
previously emitted character closed a whitespace run. -/
def collapseAux : Bool → List Char → List Char
  | _, [] => []
  | prevWs, c :: rest =>
    if isWsChar c then
      if prevWs then collapseAux true rest else ' ' :: collapseAux true rest
    else c :: collapseAux false rest

/-- `re.sub(r"\s+", " ", text)`: each maximal whitespace run becomes one space. -/
def collapseWs (l : List Char) : List Char := collapseAux false l

/-! ## `entity_resolution.py` -/

/-- `normalize_entity`: lowercase, strip, collapse whitespace
(the source strips, lowercases, then collapses). -/
def normalize_entity (s : String) : String :=
  ⟨collapseWs ((stripList s.data).map lowerChar)⟩

/-- `BUILTIN_ALIASES` from `entity_resolution.py`, in source order. -/
def BUILTIN_ALIASES : List (String × String) :=
  [ ("我", "user"), ("i", "user"), ("me", "user"), ("myself", "user"),
    ("使用者", "user"), ("用戶", "user"), ("本人", "user"),
    ("js", "javascript"), ("ts", "typescript"), ("py", "python"),
    ("rb", "ruby"), ("rs", "rust"),
    ("vim", "neovim"), ("pg", "postgresql"), ("postgres", "postgresql"),
    ("mongo", "mongodb"), ("k8s", "kubernetes"), ("tf", "terraform"),
    ("gh", "github"),
    ("mac", "macos"), ("osx", "macos"), ("win", "windows") ]

/-- `resolve_entity`: normalize then alias lookup, unknown inputs fall through. -/
def resolve_entity (s : String) : String :=
  let normalized := normalize_entity s
  match BUILTIN_ALIASES.lookup normalized with
  | some v => v
  | none => normalized

/-! ## Data model (`db/entities.py`)

UUIDs are `Nat`, timestamps are `Int` day counts, floats are `ℚ`. -/

/-- `ItemEntity`: an atomic subject-predicate-object fact. -/
structure ItemE where
  id : Nat
  created_at : Int := 0
  resource_id : Option Nat := none
  subject : Option String := none
  predicate : Option String := none
  object : Option String := none
  category : Option String := none
  confidence : ℚ := 1
  status : String := "active"
  supersedes : Option Nat := none
  canonical_subject : Option String := none
  canonical_object : Option String := none
  meta_about : Option Nat := none
deriving DecidableEq

/-- `GraphEdgeEntity`: a directed weighted edge between canonical entity strings. -/
structure GraphEdgeE where
  id : Nat
  subject : String := ""
  predicate : String := ""
  object : String := ""
  weight : ℚ := 1
  created_at : Int := 0
deriving DecidableEq

/-- `CategoryEntity` (only the fields the claims touch). -/
structure CategoryE where
  id : Nat
  name : String := ""
  summary : Option String := none
  updated_at : Int := 0
deriving DecidableEq

/-- `GraphPath` from `db/entities.py`. -/
structure GraphPathE where
  source : String
  target : String
  edges : List GraphEdgeE
  hops : List String
  distance : Nat
  weight : ℚ
deriving DecidableEq

/-- Python truthiness of an optional string (`if s:`): `None` and `""` are falsy. -/
def pyTruthy : Option String → Bool
  | none => false
  | some s => s ≠ ""

/-- Python `a or b` on optional strings: `b` when `a` is falsy. -/
def pyOrStr : Option String → Option String → Option String
  | some s, b => if s = "" then b else some s
  | none, b => b

/-! ## Item repository (`db/repositories/postgres/item.py`)

The database state is the list of item rows; each query becomes a pure
function of that list.  `ORDER BY created_at DESC` is modelled by a stable
sort on the fetched rows. -/

/-- `ORDER BY created_at DESC`. -/
def sortByCreatedDesc (l : List ItemE) : List ItemE :=
  List.insertionSort (fun a b => b.created_at ≤ a.created_at) l

/-- `PostgresItemRepository.get`. -/
def item_get (items : List ItemE) (item_id : Nat) : Option ItemE :=
  items.find? (fun i => i.id == item_id)

/-- `PostgresItemRepository.update`: full-row replace of the mutable fields
(`created_at`, `resource_id` and `meta_about` are not written). -/
def item_update (items : List ItemE) (e : ItemE) : List ItemE :=
  items.map fun i =>
    if i.id == e.id then
      { i with
        subject := e.subject,
        predicate := e.predicate,
        object := e.object,
        category := e.category,
        confidence := e.confidence,
        status := e.status,
        supersedes := e.supersedes,
        canonical_subject := e.canonical_subject,
        canonical_object := e.canonical_object }
    else i

/-- `PostgresItemRepository.update_status`. -/
def item_update_status (items : List ItemE) (item_id : Nat) (status : String) : List ItemE :=
  items.map fun i => if i.id == item_id then { i with status := status } else i

/-- `PostgresItemRepository.list`: status filter, meta-facts excluded, optional
category filter (`if category:` — Python truthiness), newest first, `LIMIT`. -/
def items_list (items : List ItemE) (category : Option String := none)
    (status : String := "active") (limit : Nat := 100) : List ItemE :=
  let base := items.filter fun i =>
    i.status == status && i.meta_about == none &&
      (!pyTruthy category || i.category == category)
  (sortByCreatedDesc base).take limit

/-- `PostgresItemRepository.list_by_subject`: resolves its own argument and
matches on `canonical_subject`, excluding meta-facts. -/
def list_by_subject (items : List ItemE) (subject : String)
    (status : String := "active") : List ItemE :=
  let canonical := resolve_entity subject
  sortByCreatedDesc (items.filter fun i =>
    i.canonical_subject == some canonical && i.status == status && i.meta_about == none)

/-- `PostgresItemRepository.find_potential_conflicts`: active items sharing the
resolved canonical subject and the predicate. -/
def find_potential_conflicts (items : List ItemE) (subject : String)
    (predicate : Option String) (exclude_id : Option Nat) : List ItemE :=
  let canonical := resolve_entity subject
  items.filter fun i =>
    i.canonical_subject == some canonical && i.predicate == predicate &&
      i.status == "active" &&
      (match exclude_id with
       | some e => i.id != e
       | none => true)

/-! ## Conflict resolver (`conflict.py`) -/

/-- `check_conflict` with `use_llm=False`: same subject and predicate but
different object. -/
def check_conflict_rule (i1 i2 : ItemE) : Bool :=
  i1.subject == i2.subject && i1.predicate == i2.predicate && i1.object != i2.object

/-- `find_conflicts`.  (When `item.subject` is `None` the Python code would
raise inside `resolve_entity`; that path is unreachable from the scenarios
modelled here and is mapped to the empty candidate list.) -/
def find_conflicts (items : List ItemE) (item_id : Nat) : List ItemE :=
  match item_get items item_id with
  | none => []
  | some item =>
    match item.subject with
    | none => []
    | some s =>
      (find_potential_conflicts items s item.predicate (some item_id)).filter
        (fun c => check_conflict_rule item c)

/-- `resolve_conflict`: archive the old item and point the new item's
`supersedes` at it.  (Missing ids raise `ValueError` in the source; modelled
as the unchanged state, unreachable from `auto_resolve_conflicts`.) -/
def resolve_conflict (items : List ItemE) (new_item_id old_item_id : Nat) : List ItemE :=
  match item_get items old_item_id, item_get items new_item_id with
  | some _, some newItem =>
    let afterArchive := item_update_status items old_item_id "archived"
    item_update afterArchive { newItem with supersedes := some old_item_id }
  | _, _ => items

/-- `auto_resolve_conflicts`: returns the new state and the number of
conflicts resolved. -/
def auto_resolve_conflicts (items : List ItemE) (item_id : Nat)
    (strategy : String := "recency") : List ItemE × Nat :=
  if strategy == "manual" then (items, 0)
  else
    match item_get items item_id with
    | none => (items, 0)
    | some item =>
      (find_conflicts items item_id).foldl
        (fun (st : List ItemE × Nat) conflict =>
          if strategy == "recency" then
            if item.created_at > conflict.created_at then
              (resolve_conflict st.1 item_id conflict.id, st.2 + 1)
            else
              (resolve_conflict st.1 conflict.id item_id, st.2 + 1)
          else if strategy == "confidence" then
            if item.confidence ≥ conflict.confidence then
              (resolve_conflict st.1 item_id conflict.id, st.2 + 1)
            else
              (resolve_conflict st.1 conflict.id item_id, st.2 + 1)
          else st)
        (items, 0)

/-! ## `POST /v2/items` (`api.py`, `create_item_v2`) -/

/-- Request body of `POST /v2/items`. -/
structure CreateItemRequest where
  subject : String
  predicate : String
  object : String
  category : Option String := none
  confidence : ℚ := 1

/-- `create_item_v2`: append one active item (canonical forms resolved at
create time) and one graph edge; no conflict or duplicate check is run.
The embedding side effect touches a separate table and is omitted. -/
def create_item_v2 (items : List ItemE) (edges : List GraphEdgeE)
    (req : CreateItemRequest) (newId : Nat) (now : Int) (edgeId : Nat) :
    List ItemE × List GraphEdgeE :=
  let entity : ItemE :=
    { id := newId,
      created_at := now,
      subject := some req.subject,
      predicate := some req.predicate,
      object := some req.object,
      category := req.category,
      confidence := req.confidence,
      status := "active",
      canonical_subject :=
        if req.subject ≠ "" then some (resolve_entity req.subject) else none,
      canonical_object :=
        if req.object ≠ "" then some (resolve_entity req.object) else none }
  let items' := items ++ [entity]
  let edges' :=
    if req.subject ≠ "" ∧ req.predicate ≠ "" ∧ req.object ≠ "" then
      edges ++ [{ id := edgeId, subject := resolve_entity req.subject,
                  predicate := req.predicate, object := resolve_entity req.object,
                  weight := 1, created_at := now }]
    else edges
  (items', edges')

/-- An item row as `POST /v2/items` would store it (canonical forms resolved
at create time); used to build concrete states in witnesses. -/
def mkFact (iid : Nat) (ts : Int) (s p o : String) (conf : ℚ) : ItemE :=
  { id := iid, created_at := ts, subject := some s, predicate := some p,
    object := some o, confidence := conf, status := "active",
    canonical_subject := some (resolve_entity s),
    canonical_object := some (resolve_entity o) }

/-- Number of active items carrying a given canonical triple. -/
def activeCountForTriple (items : List ItemE) (s p o : Option String) : Nat :=
  (items.filter fun i =>
    i.status == "active" && i.canonical_subject == s && i.predicate == p &&
      i.canonical_object == o).length

/-- The spec invariant: at most one active item per canonical triple. -/
def atMostOneActivePerTriple (items : List ItemE) : Prop :=
  ∀ s p o, activeCountForTriple items s p o ≤ 1

/-! ## Graph repository (`db/repositories/postgres/graph.py`) -/

/-- `ORDER BY weight DESC` on edges. -/
def sortByWeightDesc (l : List GraphEdgeE) : List GraphEdgeE :=
  List.insertionSort (fun a b => b.weight ≤ a.weight) l

/-- Edges incident on an entity (the neighbor query inside `find_paths`,
without ordering). -/
def pathNeighbors (edges : List GraphEdgeE) (entity : String) : List GraphEdgeE :=
  edges.filter (fun e => e.subject == entity || e.object == entity)

/-- `PostgresGraphRepository.get_neighbors` at `depth = 1` (the only depth the
search router uses): incident edges ordered by weight descending. -/
def get_neighbors (edges : List GraphEdgeE) (entity : String) : List GraphEdgeE :=
  sortByWeightDesc (pathNeighbors edges entity)

/-- One BFS queue entry of `find_paths`: current entity, hops so far, edges so
far, weight product so far. -/
structure BfsEntry where
  entity : String
  hops : List String
  pathEdges : List GraphEdgeE
  weight : ℚ
deriving DecidableEq

/-- The body of the `for edge in neighbors` loop of `find_paths`: consume one
edge, possibly emitting a path and a new queue entry. -/
def processEdge (source : String) (maxDepth : Nat) (entry : BfsEntry)
    (st : List GraphPathE × List BfsEntry × List (String × String × String))
    (edge : GraphEdgeE) :
    List GraphPathE × List BfsEntry × List (String × String × String) :=
  let (paths, newEntries, visited) := st
  let triple := (edge.subject, edge.predicate, edge.object)
  if visited.contains triple then st
  else
    let visited' := visited ++ [triple]
    let nextEntity := if edge.subject == entry.entity then edge.object else edge.subject
    if entry.hops.contains nextEntity then (paths, newEntries, visited')
    else
      let newHops := entry.hops ++ [nextEntity]
      let newEdges := entry.pathEdges ++ [edge]
      let newWeight := entry.weight * edge.weight
      let paths' := paths ++
        [{ source := source, target := nextEntity, edges := newEdges,
           hops := newHops, distance := newEdges.length, weight := newWeight }]
      let newEntries' :=
        if newHops.length - 1 < maxDepth then
          newEntries ++ [⟨nextEntity, newHops, newEdges, newWeight⟩]
        else newEntries
      (paths', newEntries', visited')

/-- The `while queue` loop of `find_paths`.  `fuel` bounds the number of pops;
each enqueue after the initial one consumes a fresh edge triple, so
`edges.length + 1` pops always drain the queue. -/
def findPathsLoop (edges : List GraphEdgeE) (source : String) (maxDepth : Nat) :
    Nat → List BfsEntry → List (String × String × String) → List GraphPathE →
    List GraphPathE
  | 0, _, _, paths => paths
  | _ + 1, [], _, paths => paths
  | fuel + 1, entry :: queue, visited, paths =>
    if entry.hops.length - 1 ≥ maxDepth then
      findPathsLoop edges source maxDepth fuel queue visited paths
    else
      let st := (pathNeighbors edges entry.entity).foldl
        (processEdge source maxDepth entry) (paths, [], visited)
      findPathsLoop edges source maxDepth fuel (queue ++ st.2.1) st.2.2 st.1

/-- Descending stable sort of paths by weight (`paths.sort(key=weight, reverse=True)`). -/
def sortPathsByWeightDesc (l : List GraphPathE) : List GraphPathE :=
  List.insertionSort (fun a b => b.weight ≤ a.weight) l

/-- `PostgresGraphRepository.find_paths`. -/
def find_paths (edges : List GraphEdgeE) (source : String)
    (target : Option String := none) (max_depth : Nat := 2) (max_paths : Nat := 20) :
    List GraphPathE :=
  let maxDepth := min max_depth 3
  let paths := findPathsLoop edges source maxDepth (edges.length + 1)
    [⟨source, [source], [], 1⟩] [] []
  let sorted := sortPathsByWeightDesc paths
  let filtered :=
    match target with
    | some t => sorted.filter (fun (p : GraphPathE) => p.target == t)
    | none => sorted
  filtered.take max_paths

/-- Invariant of a BFS queue entry of `find_paths`: hops start at the source,
repeat no entity, carry one fewer edge than hops, and the weight is the
product of the edge weights. -/
def bfsEntryInv (source : String) (e : BfsEntry) : Prop :=
  e.hops ≠ [] ∧ e.hops.head? = some source ∧ e.hops.Nodup ∧
  e.pathEdges.length + 1 = e.hops.length ∧
  e.weight = (e.pathEdges.map (fun ed => ed.weight)).prod

/-- The per-path property claimed for `find_paths` results. -/
def graphPathInv (source : String) (maxDepth : Nat) (p : GraphPathE) : Prop :=
  p.hops.head? = some source ∧ p.hops.Nodup ∧
  p.edges.length + 1 = p.hops.length ∧
  p.weight = (p.edges.map (fun e => e.weight)).prod ∧
  p.distance = p.edges.length ∧ p.distance ≤ maxDepth

/-! ## Search router (`search.py`) -/

/-- Python string interpolation of an optional value (`None` prints as `"None"`). -/
def pyStr : Option String → String
  | none => "None"
  | some s => s

/-- One entry of the result list built by `_item_to_dict`. -/
structure SearchResultE where
  id : Nat
  subject : Option String
  predicate : Option String
  object : Option String
  category : Option String
  confidence : ℚ
  similarity : ℚ
  created_at : Int
  status : String
deriving DecidableEq

/-- `_item_to_dict`. -/
def item_to_dict (i : ItemE) (similarity : ℚ) : SearchResultE :=
  { id := i.id,
    subject := i.subject,
    predicate := i.predicate,
    object := i.object,
    category := i.category,
    confidence := i.confidence,
    similarity := similarity,
    created_at := i.created_at,
    status := i.status }

/-- The `{intent, items, total}` dictionary returned by the strategies. -/
structure SearchResponseE where
  intent : String
  items : List SearchResultE
  total : Nat
deriving DecidableEq

/-- The repeated loop body of `_entity_lookup`: append the given items at the
given nominal similarity, skipping seen ids and applying the optional
category filter. -/
def collectItems (category : Option String) (sim : ℚ) (its : List ItemE)
    (acc : List SearchResultE × List Nat) : List SearchResultE × List Nat :=
  its.foldl
    (fun (acc : List SearchResultE × List Nat) item =>
      if !acc.2.contains item.id && (!pyTruthy category || item.category == category) then
        (acc.1 ++ [item_to_dict item sim], acc.2 ++ [item.id])
      else acc)
    acc

/-- Descending stable sort of results by similarity. -/
def sortBySimilarityDesc (l : List SearchResultE) : List SearchResultE :=
  List.insertionSort (fun a b => b.similarity ≤ a.similarity) l

instance : IsTotal SearchResultE (fun a b => b.similarity ≤ a.similarity) :=
  ⟨fun a b => (le_total b.similarity a.similarity)⟩

instance : IsTrans SearchResultE (fun a b => b.similarity ≤ a.similarity) :=
  ⟨fun _ _ _ hab hbc => le_trans hbc hab⟩

/-- Dedup invariant of the `_entity_lookup` accumulator: result ids are
distinct and all recorded in `seen_ids`. -/
def collectInv (acc : List SearchResultE × List Nat) : Prop :=
  (acc.1.map (fun r => r.id)).Nodup ∧ ∀ r ∈ acc.1, r.id ∈ acc.2

/-- `_entity_lookup`: graph-neighbor matches first (0.9 subject side, 0.8
object side), then exact canonical-subject matches at 1.0; dedupe by id,
sort by similarity, cap at `limit`. -/
def entity_lookup (items : List ItemE) (edges : List GraphEdgeE) (entity : String)
    (category : Option String) (limit : Nat) : SearchResponseE :=
  let canonical := resolve_entity entity
  let acc := (get_neighbors edges canonical).foldl
    (fun acc edge =>
      let acc := collectItems category (9/10) (list_by_subject items edge.subject "active") acc
      collectItems category (8/10) (list_by_subject items edge.object "active") acc)
    ([], [])
  let acc := collectItems category 1 (list_by_subject items canonical "active") acc
  let results := (sortBySimilarityDesc acc.1).take limit
  { intent := "EntityLookup", items := results, total := results.length }

/-- `_semantic_search`.  The embedding provider and vector index are external
collaborators; their combined outcome is a parameter: `.error` models the
`except` branch (provider/search raised), `.ok` the returned
`(item, similarity)` pairs. -/
def semantic_search (searchOutcome : Except Unit (List (ItemE × ℚ)))
    (items : List ItemE) (category : Option String) (limit : Nat) : SearchResponseE :=
  let fallback : SearchResponseE :=
    let recent := (items_list items category "active" limit).map (item_to_dict · 0)
    { intent := "SemanticSearch(fallback)", items := recent, total := recent.length }
  match searchOutcome with
  | .error _ => fallback
  | .ok searchResults =>
    let results := (searchResults.filter
        (fun sr => !(pyTruthy category && sr.1.category != category))).map
      (fun sr => item_to_dict sr.1 sr.2)
    if results.isEmpty then fallback
    else { intent := "SemanticSearch", items := results, total := results.length }

/-! ## Weekly maintenance (`jobs/weekly.py`) -/

/-- `time_decay_score`: `0.5 ** (age_days / half_life_days)`.  The float power
operation is the parameter `fpow`; timestamps are day counts, so
`now - created_at` is Python's `(utcnow() - created_at).days`. -/
def time_decay_score (fpow : ℚ → ℚ → ℚ) (now : Int) (created_at : Int)
    (half_life_days : Int := 30) : ℚ :=
  fpow (1/2) ((((now - created_at) : Int) : ℚ) / ((half_life_days : Int) : ℚ))

/-- The per-item body of `apply_time_decay`: the new row and whether it was
written back. -/
def decayStep (fpow : ℚ → ℚ → ℚ) (now : Int) (half_life_days : Int)
    (item : ItemE) : ItemE × Bool :=
  let decay := time_decay_score fpow now item.created_at half_life_days
  let new_confidence := item.confidence * decay
  if |new_confidence - item.confidence| > 1/100 then
    ({ item with confidence := max (1/10) new_confidence }, true)
  else (item, false)

/-- `apply_time_decay`, acting on the fetched list of active items
(`uow.items.list(status="active", limit=10000)`): the updated rows and the
count of write-backs. -/
def apply_time_decay (fpow : ℚ → ℚ → ℚ) (now : Int) (items : List ItemE)
    (half_life_days : Int := 30) : List ItemE × Nat :=
  (items.map (fun i => (decayStep fpow now half_life_days i).1),
   (items.filter (fun i => (decayStep fpow now half_life_days i).2)).length)

/-- Running the weekly decay step `n` times in a row over the same fetched
list (spec: the 0.1 floor survives arbitrarily many repetitions). -/
def decayIter (fpow : ℚ → ℚ → ℚ) (now : Int) (half_life_days : Int) :
    Nat → List ItemE → List ItemE
  | 0, items => items
  | n + 1, items => (apply_time_decay fpow now (decayIter fpow now half_life_days n items) half_life_days).1

/-- `DISTANCE_DISCOUNT.get(distance, 0.0)`. -/
def DISTANCE_DISCOUNT (d : Nat) : ℚ :=
  if d = 1 then 1 else if d = 2 then 1/2 else 0

/-- The per-entity content of the `direct` map of `_build_adjacency`
(`defaultdict` keyed by both edge endpoints, in edge order). -/
def directNeighbors (edges : List GraphEdgeE) (entity : String) : List (String × ℚ) :=
  edges.foldl
    (fun acc e =>
      let acc := if e.subject == entity then acc ++ [(e.object, e.weight)] else acc
      if e.object == entity then acc ++ [(e.subject, e.weight)] else acc)
    []

/-- The per-entity content of the adjacency map of `_build_adjacency` with the
fixed `max_depth = 2`: 1-hop entries first, then unseen 2-hop entries, one
shared `seen` set seeded with the entity itself.  The Python dict has a key
for `entity` iff this list is nonempty. -/
def adjacencyAt (edges : List GraphEdgeE) (entity : String) :
    List (String × ℚ × Nat) :=
  let neighbors := directNeighbors edges entity
  let st1 := neighbors.foldl
    (fun (p : List (String × ℚ × Nat) × List String) nw =>
      if p.2.contains nw.1 then p else (p.1 ++ [(nw.1, nw.2, 1)], p.2 ++ [nw.1]))
    ([], [entity])
  let st2 := neighbors.foldl
    (fun (p : List (String × ℚ × Nat) × List String) nw =>
      (directNeighbors edges nw.1).foldl
        (fun (q : List (String × ℚ × Nat) × List String) h2 =>
          if q.2.contains h2.1 then q else (q.1 ++ [(h2.1, h2.2, 2)], q.2 ++ [h2.1]))
        p)
    st1
  st2.1

/-- `canonical = item.canonical_subject or item.canonical_object`, then the
`if not canonical: continue` truthiness guard. -/
def effectiveKey (i : ItemE) : Option String :=
  match pyOrStr i.canonical_subject i.canonical_object with
  | some s => if s = "" then none else some s
  | none => none

/-- `entity_confidence[e]`: average confidence of the non-meta fetched items
sharing the canonical key `e` (absent when no item has that key). -/
def entity_confidence (items : List ItemE) (e : String) : Option ℚ :=
  let eitems := items.filter (fun i => i.meta_about == none && effectiveKey i == some e)
  if eitems.isEmpty then none
  else some ((eitems.map (·.confidence)).sum / eitems.length)

/-- `total_weight` of the propagation loop as a closed sum over the adjacency
entries (zero contribution for neighbors without items). -/
def propTotalWeight (items : List ItemE) (ns : List (String × ℚ × Nat)) : ℚ :=
  (ns.map (fun nwd =>
    match entity_confidence items nwd.1 with
    | none => 0
    | some _ => nwd.2.1 * DISTANCE_DISCOUNT nwd.2.2)).sum

/-- `weighted_sum` of the propagation loop as a closed sum. -/
def propWeightedSum (items : List ItemE) (ns : List (String × ℚ × Nat)) : ℚ :=
  (ns.map (fun nwd =>
    match entity_confidence items nwd.1 with
    | none => 0
    | some ec => ec * (nwd.2.1 * DISTANCE_DISCOUNT nwd.2.2))).sum

/-- The clamped propagated confidence
`max 0.1 (min 1 (old·(1−0.15) + neighbor_signal·0.15))`. -/
def propClamped (items : List ItemE) (ns : List (String × ℚ × Nat)) (old : ℚ) : ℚ :=
  max (1/10) (min 1 (old * (1 - 15/100) +
    (propWeightedSum items ns / propTotalWeight items ns) * (15/100)))

/-- The body of the update loop of `propagate_confidence` for one item. -/
def propagateItem (items : List ItemE) (edges : List GraphEdgeE) (item : ItemE) :
    ItemE :=
  if item.meta_about != none then item
  else
    match effectiveKey item with
    | none => item
    | some canonical =>
      let neighbors := adjacencyAt edges canonical
      if neighbors.isEmpty then item
      else
        let acc := neighbors.foldl
          (fun (acc : ℚ × ℚ) nwd =>
            match entity_confidence items nwd.1 with
            | none => acc
            | some ec =>
              let w := nwd.2.1 * DISTANCE_DISCOUNT nwd.2.2
              (acc.1 + ec * w, acc.2 + w))
          (0, 0)
        if acc.2 = 0 then item
        else
          let neighbor_signal := acc.1 / acc.2
          let new_confidence :=
            item.confidence * (1 - 15/100) + neighbor_signal * (15/100)
          let clamped := max (1/10) (min 1 new_confidence)
          if |clamped - item.confidence| < 1/100 then item
          else { item with confidence := clamped }

/-- `propagate_confidence`, acting on the fetched active items and all edges:
the entity-confidence snapshot is taken before any write. -/
def propagate_confidence (items : List ItemE) (edges : List GraphEdgeE) :
    List ItemE × Nat :=
  if edges.isEmpty then (items, 0)
  else
    (items.map (propagateItem items edges),
     (items.filter (fun i => propagateItem items edges i ≠ i)).length)

/-! ## Tiered context (`summarize.py`, `get_tiered_context`) -/

/-- ASCII uppercasing of one character (for Python `str.title`). -/
def upperChar (c : Char) : Char :=
  if 'a' ≤ c ∧ c ≤ 'z' then Char.ofNat (c.toNat - 32) else c

/-- ASCII letter test (for Python `str.title`). -/
def isAlphaChar (c : Char) : Bool :=
  ('a' ≤ c ∧ c ≤ 'z') || ('A' ≤ c ∧ c ≤ 'Z')

/-- Python `str.title` on ASCII words: first letter of each run of letters
uppercased, the rest lowercased. -/
def pyTitleAux : Bool → List Char → List Char
  | _, [] => []
  | prevAlpha, c :: rest =>
    if isAlphaChar c then
      (if prevAlpha then lowerChar c else upperChar c) :: pyTitleAux true rest
    else c :: pyTitleAux false rest

/-- Python `str.title`. -/
def pyTitle (s : String) : String := ⟨pyTitleAux false s.data⟩

/-- The `default_summaries` table of `get_tiered_context`. -/
def default_summaries : List (String × String) :=
  [ ("events", "Past or scheduled events, activities, appointments"),
    ("facts", "Factual information about the user or their environment"),
    ("goals", "Objectives, plans, aspirations"),
    ("preferences", "User preferences, settings, and personal choices"),
    ("relationships", "People, organizations, and their connections"),
    ("skills", "Abilities, expertise, knowledge areas") ]

/-- The `- <subject> <predicate>[ <object>]` item line. -/
def itemLine (i : ItemE) : String :=
  let objPart := if pyTruthy i.object then " " ++ pyStr i.object else ""
  "- " ++ pyStr i.subject ++ " " ++ pyStr i.predicate ++ objPart

/-- One category block (`"\n".join(block_lines)`). -/
def buildBlock (name : String) (summary : Option String) (isDefault : Bool)
    (catItems : List ItemE) : String :=
  let lines := ["### " ++ pyTitle name]
  let lines :=
    if pyTruthy summary && !isDefault then lines ++ [pyStr summary, ""] else lines
  let lines :=
    if catItems.isEmpty then lines
    else
      (if !isDefault then lines ++ ["**Recent:**"] else lines) ++
        catItems.map itemLine ++ [""]
  String.intercalate "\n" lines

/-- The `blocks` list of `get_tiered_context`: one `(name, block)` pair per
surviving category, in priority order. -/
def contextBlocks (sortedNames : List String) (categories : List CategoryE)
    (items : List ItemE) (max_items_per_category : Nat) :
    List (String × String) :=
  sortedNames.foldl
    (fun acc name =>
      let summary :=
        match categories.find? (fun c => c.name == name) with
        | some c => c.summary
        | none => none
      let catItems := items_list items (some name) "active" max_items_per_category
      let isDefault :=
        (summary == (default_summaries.lookup name : Option String)) || !pyTruthy summary
      if catItems.isEmpty && isDefault then acc
      else acc ++ [(name, buildBlock name summary isDefault catItems)])
    []

/-- The truncation loop of `get_tiered_context`: include whole blocks while
the running character count fits (`if max_chars and ... > max_chars: break`;
`max_chars = 0` is falsy and disables truncation). -/
def truncateLoop (maxChars : Option Nat) : Nat → List (String × String) →
    List (String × String)
  | _, [] => []
  | currentLen, (name, block) :: rest =>
    let blockLen := block.length + 1
    if (match maxChars with
        | some mc => decide (mc ≠ 0 ∧ currentLen + blockLen > mc)
        | none => false) then []
    else (name, block) :: truncateLoop maxChars (currentLen + blockLen) rest

/-- `get_tiered_context` (the category-priority ordering, computed upstream by
`priority.py`, enters as `sortedNames`; the `record_access` side effect is
dropped). -/
def get_tiered_context (sortedNames : List String) (categories : List CategoryE)
    (items : List ItemE) (max_items_per_category : Nat := 10)
    (max_chars : Option Nat := none) : String :=
  if sortedNames.isEmpty then "No memory context available."
  else
    let header := "## User Memory Context\n"
    let blocks := contextBlocks sortedNames categories items max_items_per_category
    let included := truncateLoop max_chars header.length blocks
    String.intercalate "\n" (header :: included.map Prod.snd)

/-! ### Facts about the character primitives -/

theorem toNat_ofNat_valid (n : Nat) (h : Nat.isValidChar n) : (Char.ofNat n).toNat = n := by
  simp only [Char.ofNat, dif_pos h, Char.ofNatAux, Char.toNat, UInt32.toNat, BitVec.toNat_ofNatLt]

theorem lowerChar_def (c : Char) :
    lowerChar c = if 'A' ≤ c ∧ c ≤ 'Z' then Char.ofNat (c.toNat + 32) else c := rfl

theorem char_le_iff_toNat {a b : Char} : a ≤ b ↔ a.toNat ≤ b.toNat := by
  rw [Char.le_def]; rfl

theorem char_eq_iff_toNat {a b : Char} : a = b ↔ a.toNat = b.toNat := by
  constructor
  · intro h; rw [h]
  · intro h
    apply Char.ext
    apply UInt32.ext
    exact h

theorem lowerChar_toNat_of_upper {c : Char} (h : 'A' ≤ c ∧ c ≤ 'Z') :
    (lowerChar c).toNat = c.toNat + 32 := by
  rw [lowerChar_def, if_pos h]
  apply toNat_ofNat_valid
  have h2 := char_le_iff_toNat.mp h.2
  have hz : ('Z' : Char).toNat = 90 := rfl
  rw [hz] at h2
  left; omega

theorem not_upper_lowerChar (c : Char) : ¬('A' ≤ lowerChar c ∧ lowerChar c ≤ 'Z') := by
  by_cases h : 'A' ≤ c ∧ c ≤ 'Z'
  · have ht := lowerChar_toNat_of_upper h
    have h1 := char_le_iff_toNat.mp h.1
    have ha : ('A' : Char).toNat = 65 := rfl
    rw [ha] at h1
    intro hc
    have h3 := char_le_iff_toNat.mp hc.2
    have hz : ('Z' : Char).toNat = 90 := rfl
    rw [hz] at h3
    omega
  · rw [lowerChar_def, if_neg h]
    exact h

theorem lowerChar_idem (c : Char) : lowerChar (lowerChar c) = lowerChar c := by
  rw [lowerChar_def (lowerChar c), if_neg (not_upper_lowerChar c)]

theorem char_beq_eq (c d : Char) : (c == d) = (c.toNat == d.toNat) := by
  by_cases h : c = d
  · subst h; simp
  · have h2 : c.toNat ≠ d.toNat := fun he => h (char_eq_iff_toNat.mpr he)
    simp [beq_iff_eq, h, h2]

theorem isWsChar_lowerChar (c : Char) : isWsChar (lowerChar c) = isWsChar c := by
  by_cases h : 'A' ≤ c ∧ c ≤ 'Z'
  · have ht := lowerChar_toNat_of_upper h
    have h1 := char_le_iff_toNat.mp h.1
    have h2 := char_le_iff_toNat.mp h.2
    have ha : ('A' : Char).toNat = 65 := rfl
    have hz : ('Z' : Char).toNat = 90 := rfl
    rw [ha] at h1; rw [hz] at h2
    rw [Bool.eq_iff_iff]
    simp only [isWsChar, char_beq_eq, Bool.or_eq_true, beq_iff_eq]
    have hsp : (' ' : Char).toNat = 32 := rfl
    have htb : ('\t' : Char).toNat = 9 := rfl
    have hnl : ('\n' : Char).toNat = 10 := rfl
    have hcr : ('\r' : Char).toNat = 13 := rfl
    have hvt : ('\x0b' : Char).toNat = 11 := rfl
    have hff : ('\x0c' : Char).toNat = 12 := rfl
    rw [hsp, htb, hnl, hcr, hvt, hff]
    omega
  · rw [lowerChar_def, if_neg h]

theorem collapseAux_ws_true {c : Char} (h : isWsChar c = true) (rest : List Char) :
    collapseAux true (c :: rest) = collapseAux true rest := by
  simp [collapseAux, h]

theorem collapseAux_ws_false {c : Char} (h : isWsChar c = true) (rest : List Char) :
    collapseAux false (c :: rest) = ' ' :: collapseAux true rest := by
  simp [collapseAux, h]

theorem collapseAux_not_ws {c : Char} (h : isWsChar c = false) (b : Bool) (rest : List Char) :
    collapseAux b (c :: rest) = c :: collapseAux false rest := by
  cases b <;> simp [collapseAux, h]

theorem collapseAux_idem (l : List Char) :
    ∀ b, collapseAux b (collapseAux b l) = collapseAux b l := by
  induction l with
  | nil => intro b; rfl
  | cons c rest ih =>
    intro b
    by_cases h : isWsChar c
    · cases b
      · rw [collapseAux_ws_false h, collapseAux_ws_false (by rfl), ih true]
      · rw [collapseAux_ws_true h, ih true]
    · have h' : isWsChar c = false := by simpa using h
      rw [collapseAux_not_ws h', collapseAux_not_ws h', ih false]

theorem map_lowerChar_collapseAux {l : List Char} (hl : ∀ c ∈ l, lowerChar c = c) :
    ∀ b, (collapseAux b l).map lowerChar = collapseAux b l := by
  induction l with
  | nil => intro b; rfl
  | cons c rest ih =>
    intro b
    have hrest : ∀ c ∈ rest, lowerChar c = c := fun c hc => hl c (List.mem_cons_of_mem _ hc)
    by_cases h : isWsChar c
    · cases b
      · rw [collapseAux_ws_false h, List.map_cons, ih hrest true]
        have : lowerChar ' ' = ' ' := by decide
        rw [this]
      · rw [collapseAux_ws_true h, ih hrest true]
    · have h' : isWsChar c = false := by simpa using h
      rw [collapseAux_not_ws h', List.map_cons, ih hrest false,
        hl c (List.mem_cons_self _ _)]

theorem dropWhile_head?_not (p : Char → Bool) (l : List Char) :
    ∀ c, (l.dropWhile p).head? = some c → p c = false := by
  induction l with
  | nil => intro c h; simp [List.dropWhile] at h
  | cons a t ih =>
    intro c h
    rw [List.dropWhile_cons] at h
    split at h
    · exact ih c h
    · rename_i hpa
      simp at h
      subst h
      simpa using hpa

theorem stripList_getLast?_not (l : List Char) :
    ∀ c, (stripList l).getLast? = some c → isWsChar c = false := by
  intro c h
  rw [stripList, List.getLast?_reverse] at h
  exact dropWhile_head?_not _ _ c h

theorem stripList_prefix_dropWhile (l : List Char) :
    ∃ s : List Char, l.dropWhile isWsChar = stripList l ++ s := by
  obtain ⟨s, hs⟩ := (List.dropWhile_suffix (l := (l.dropWhile isWsChar).reverse) isWsChar)
  refine ⟨s.reverse, ?_⟩
  have := congrArg List.reverse hs
  simp only [List.reverse_append, List.reverse_reverse] at this
  rw [stripList]
  exact this.symm

theorem stripList_head?_not (l : List Char) :
    ∀ c, (stripList l).head? = some c → isWsChar c = false := by
  intro c h
  obtain ⟨s, hs⟩ := stripList_prefix_dropWhile l
  cases hsl : stripList l with
  | nil => rw [hsl] at h; simp at h
  | cons a rest =>
    rw [hsl] at h hs
    simp at h
    subst h
    apply dropWhile_head?_not isWsChar l
    rw [hs]
    rfl

theorem collapseAux_append_not_ws {c : Char} (h : isWsChar c = false) :
    ∀ (l : List Char) (b : Bool), ∃ init, collapseAux b (l ++ [c]) = init ++ [c] := by
  intro l
  induction l with
  | nil =>
    intro b
    refine ⟨[], ?_⟩
    rw [List.nil_append, collapseAux_not_ws h]
    rfl
  | cons a t ih =>
    intro b
    by_cases ha : isWsChar a
    · cases b
      · obtain ⟨init, hi⟩ := ih true
        refine ⟨' ' :: init, ?_⟩
        rw [List.cons_append, collapseAux_ws_false ha, hi]
        rfl
      · obtain ⟨init, hi⟩ := ih true
        refine ⟨init, ?_⟩
        rw [List.cons_append, collapseAux_ws_true ha, hi]
    · obtain ⟨init, hi⟩ := ih false
      refine ⟨a :: init, ?_⟩
      rw [List.cons_append, collapseAux_not_ws (by simpa using ha), hi]
      rfl

/-- The list-level body of `normalize_entity`. -/
def listNormalize (l : List Char) : List Char :=
  collapseWs ((stripList l).map lowerChar)

theorem normalize_entity_data (s : String) :
    (normalize_entity s).data = listNormalize s.data := rfl

theorem stripList_listNormalize (l : List Char) :
    stripList (listNormalize l) = listNormalize l := by
  cases hsl : stripList l with
  | nil =>
    have h0 : listNormalize l = [] := by rw [listNormalize, hsl]; rfl
    rw [h0]; rfl
  | cons a rest =>
    have hna : isWsChar a = false := stripList_head?_not l a (by rw [hsl]; rfl)
    have hla : isWsChar (lowerChar a) = false := by rw [isWsChar_lowerChar]; exact hna
    have hne : stripList l ≠ [] := by rw [hsl]; simp
    set z := (stripList l).getLast hne with hz
    have hnz : isWsChar z = false :=
      stripList_getLast?_not l z (List.getLast?_eq_getLast _ hne)
    have hlz : isWsChar (lowerChar z) = false := by rw [isWsChar_lowerChar]; exact hnz
    have hdecomp : (stripList l).dropLast ++ [z] = stripList l :=
      List.dropLast_append_getLast hne
    have hvdecomp : (stripList l).map lowerChar
        = ((stripList l).dropLast.map lowerChar) ++ [lowerChar z] := by
      conv_lhs => rw [← hdecomp]
      simp
    obtain ⟨init, hinit⟩ :=
      collapseAux_append_not_ws hlz ((stripList l).dropLast.map lowerChar) false
    have htail : listNormalize l = init ++ [lowerChar z] := by
      rw [listNormalize, collapseWs, hvdecomp, hinit]
    have hhead : listNormalize l = lowerChar a :: collapseAux false (rest.map lowerChar) := by
      rw [listNormalize, collapseWs, hsl, List.map_cons, collapseAux_not_ws hla]
    rw [stripList]
    have h1 : (listNormalize l).dropWhile isWsChar = listNormalize l := by
      rw [hhead, List.dropWhile_cons]
      simp [hla]
    rw [h1, htail, List.reverse_append]
    simp only [List.reverse_cons, List.reverse_nil, List.nil_append, List.singleton_append]
    rw [List.dropWhile_cons]
    simp [hlz]

theorem map_lowerChar_listNormalize (l : List Char) :
    (listNormalize l).map lowerChar = listNormalize l := by
  rw [listNormalize, collapseWs]
  apply map_lowerChar_collapseAux
  intro c hc
  obtain ⟨d, _, hd⟩ := List.mem_map.mp hc
  rw [← hd]
  exact lowerChar_idem d

theorem listNormalize_idem (l : List Char) :
    listNormalize (listNormalize l) = listNormalize l := by
  conv_lhs => rw [listNormalize, stripList_listNormalize, map_lowerChar_listNormalize]
  rw [listNormalize, collapseWs, collapseWs]
  exact collapseAux_idem _ false

theorem normalize_entity_idem (s : String) :
    normalize_entity (normalize_entity s) = normalize_entity s := by
  have h1 : (normalize_entity s).data = listNormalize s.data := rfl
  show (⟨listNormalize (normalize_entity s).data⟩ : String) = normalize_entity s
  rw [h1, listNormalize_idem]
  rfl

theorem mem_of_lookup_eq_some {l : List (String × String)} {k v : String}
    (h : l.lookup k = some v) : (k, v) ∈ l := by
  induction l with
  | nil => simp [List.lookup] at h
  | cons p t ih =>
    obtain ⟨k', v'⟩ := p
    by_cases hk : k == k'
    · rw [List.lookup_cons] at h
      rw [hk] at h
      simp only [Option.some.injEq] at h
      subst h
      have : k = k' := by simpa using hk
      subst this
      exact List.mem_cons_self _ _
    · rw [List.lookup_cons] at h
      rw [Bool.not_eq_true] at hk
      rw [hk] at h
      exact List.mem_cons_of_mem _ (ih h)

/-- Every alias key and value is itself in normalized form, and no alias value
is again an alias key (checked by computation over the table). -/
theorem alias_entries_ok : ∀ p ∈ BUILTIN_ALIASES,
    normalize_entity p.1 = p.1 ∧ normalize_entity p.2 = p.2 ∧
      BUILTIN_ALIASES.lookup p.2 = none := by decide

theorem resolve_entity_eq (s : String) :
    resolve_entity s = match BUILTIN_ALIASES.lookup (normalize_entity s) with
      | some v => v
      | none => normalize_entity s := rfl

theorem resolve_entity_idem (s : String) :
    resolve_entity (resolve_entity s) = resolve_entity s := by
  cases hl : BUILTIN_ALIASES.lookup (normalize_entity s) with
  | some v =>
    have hv := alias_entries_ok _ (mem_of_lookup_eq_some hl)
    have h1 : resolve_entity s = v := by rw [resolve_entity_eq, hl]
    rw [h1, resolve_entity_eq, hv.2.1, hv.2.2]
  | none =>
    have h1 : resolve_entity s = normalize_entity s := by rw [resolve_entity_eq, hl]
    rw [h1, resolve_entity_eq, normalize_entity_idem, hl]

/-! ## Claim theorems -/

/-- C8: Entity resolution is idempotent: for every string `x`,
`resolve(resolve(x)) = resolve(x)`; equivalently, every key and value of the
built-in alias table is itself in normalized form and no alias value is again
an alias key. -/
theorem entity_resolution_idempotent :
    (∀ x : String, resolve_entity (resolve_entity x) = resolve_entity x) ∧
    ∀ p ∈ BUILTIN_ALIASES,
      normalize_entity p.1 = p.1 ∧ normalize_entity p.2 = p.2 ∧
        BUILTIN_ALIASES.lookup p.2 = none :=
  ⟨resolve_entity_idem, alias_entries_ok⟩

/-- Witness for C8 at a concrete input (`"  Vim "` resolves to `"neovim"`). -/
theorem entity_resolution_idempotent_witness :
    resolve_entity (resolve_entity "  Vim ") = resolve_entity "  Vim " ∧
    (normalize_entity "vim" = "vim" ∧ normalize_entity "neovim" = "neovim" ∧
      BUILTIN_ALIASES.lookup "neovim" = none) :=
  ⟨entity_resolution_idempotent.1 "  Vim ",
   entity_resolution_idempotent.2 ("vim", "neovim") (by decide)⟩

/-- C10: `list_by_subject` canonicalizes its own argument, so a raw subject
and its resolved form return the same items. -/
theorem list_by_subject_resolves_argument (items : List ItemE) (s status : String) :
    list_by_subject items s status = list_by_subject items (resolve_entity s) status := by
  unfold list_by_subject
  rw [resolve_entity_idem]

/-- C7: when the embedding/vector-search call raises, or yields zero results
after the optional category post-filter, the semantic strategy returns the
most recent active items with similarity 0 under the intent string
`"SemanticSearch(fallback)"`; otherwise it returns the vector results under
`"SemanticSearch"`. -/
theorem semantic_search_fallback_behavior (items : List ItemE)
    (category : Option String) (limit : Nat) (rs : List (ItemE × ℚ)) :
    (semantic_search (Except.error ()) items category limit =
      { intent := "SemanticSearch(fallback)",
        items := (items_list items category "active" limit).map (item_to_dict · 0),
        total := (items_list items category "active" limit).length } ∧
     ∀ r ∈ (semantic_search (Except.error ()) items category limit).items,
       r.similarity = 0) ∧
    ((rs.filter (fun sr => !(pyTruthy category && sr.1.category != category))) = [] →
      semantic_search (Except.ok rs) items category limit =
        semantic_search (Except.error ()) items category limit) ∧
    ((rs.filter (fun sr => !(pyTruthy category && sr.1.category != category))) ≠ [] →
      semantic_search (Except.ok rs) items category limit =
        { intent := "SemanticSearch",
          items := (rs.filter
              (fun sr => !(pyTruthy category && sr.1.category != category))).map
            (fun sr => item_to_dict sr.1 sr.2),
          total := ((rs.filter
              (fun sr => !(pyTruthy category && sr.1.category != category))).map
            (fun sr => item_to_dict sr.1 sr.2)).length }) := by
  refine ⟨⟨?_, ?_⟩, ?_, ?_⟩
  · simp [semantic_search]
  · intro r hr
    simp only [semantic_search] at hr
    obtain ⟨i, _, hi⟩ := List.mem_map.mp hr
    rw [← hi]
    rfl
  · intro h
    have hmap : ((rs.filter
        (fun sr => !(pyTruthy category && sr.1.category != category))).map
      (fun sr => item_to_dict sr.1 sr.2)) = [] := by rw [h]; rfl
    simp only [semantic_search, hmap, List.isEmpty_nil, if_true]
  · intro h
    have h2 : ((rs.filter
        (fun sr => !(pyTruthy category && sr.1.category != category))).map
      (fun sr => item_to_dict sr.1 sr.2)).isEmpty = false := by
      rw [List.isEmpty_eq_false_iff_exists_mem]
      obtain ⟨x, hx⟩ := List.exists_mem_of_ne_nil _ h
      exact ⟨item_to_dict x.1 x.2, List.mem_map_of_mem _ hx⟩
    simp only [semantic_search, h2, Bool.false_eq_true, if_false]

/-- Witness for C7 at a concrete input: one stored item, an erroring provider,
and an `ok` outcome with one hit. -/
theorem semantic_search_fallback_behavior_witness :
    (semantic_search (Except.ok [(⟨7, 0, none, some "alice", some "likes",
        some "python", none, 1, "active", none, some "alice", some "python",
        none⟩, 97/100)])
      [⟨7, 0, none, some "alice", some "likes", some "python", none, 1,
        "active", none, some "alice", some "python", none⟩] none 10).intent =
      "SemanticSearch" := by
  have h := (semantic_search_fallback_behavior
    [⟨7, 0, none, some "alice", some "likes", some "python", none, 1,
      "active", none, some "alice", some "python", none⟩] none 10
    [(⟨7, 0, none, some "alice", some "likes", some "python", none, 1,
      "active", none, some "alice", some "python", none⟩, 97/100)]).2.2
  rw [h (by decide)]

/-- C6: weekly time decay multiplies each confidence by the decay score,
writes back only when `|new − old| > 0.01`, floors every written value at
0.1, and therefore never persists a confidence below 0.1 no matter how often
the decay job is repeated. -/
theorem weekly_time_decay (fpow : ℚ → ℚ → ℚ) (now half_life_days : Int)
    (items : List ItemE) :
    ((apply_time_decay fpow now items half_life_days).1 = items.map (fun i =>
        if |i.confidence * time_decay_score fpow now i.created_at half_life_days
            - i.confidence| > 1/100 then
          { i with confidence := max (1/10) (i.confidence * time_decay_score fpow now i.created_at half_life_days) }
        else i)) ∧
    (∀ i ∈ items, ((decayStep fpow now half_life_days i).2 = true ↔
        |i.confidence * time_decay_score fpow now i.created_at half_life_days
          - i.confidence| > 1/100)) ∧
    (∀ i ∈ items, (decayStep fpow now half_life_days i).2 = true →
        1/10 ≤ (decayStep fpow now half_life_days i).1.confidence) ∧
    (∀ (n : Nat) (j : ItemE), j ∈ decayIter fpow now half_life_days n items →
        j ∈ items ∨ 1/10 ≤ j.confidence) := by
  refine ⟨?_, ?_, ?_, ?_⟩
  · show items.map (fun i => (decayStep fpow now half_life_days i).1) = _
    apply List.map_congr_left
    intro i _
    simp only [decayStep]
    split
    · rfl
    · rfl
  · intro i _
    simp only [decayStep]
    split
    · rename_i hc; simpa using hc
    · rename_i hc; simpa using hc
  · intro i _ hw
    simp only [decayStep] at hw ⊢
    split at hw
    · rename_i hc
      rw [if_pos hc]
      exact le_max_left _ _
    · simp at hw
  · intro n
    induction n with
    | zero => intro j hj; exact Or.inl hj
    | succ n ih =>
      intro j hj
      simp only [decayIter, apply_time_decay] at hj
      obtain ⟨i, hi, hji⟩ := List.mem_map.mp hj
      simp only [decayStep] at hji
      split at hji
      · right
        rw [← hji]
        exact le_max_left _ _
      · exact ih j (by rw [← hji]; exact hi)

/-- Witness for C6: with a constant decay factor 2 and an item of confidence
1, a write-back happens and the written value respects the 0.1 floor. -/
theorem weekly_time_decay_witness :
    1/10 ≤ ((decayStep (fun _ _ => (2 : ℚ)) 30 30
      ⟨1, 0, none, none, none, none, none, 1, "active", none, none, none, none⟩).1).confidence :=
  (weekly_time_decay (fun _ _ => (2 : ℚ)) 30 30
      [⟨1, 0, none, none, none, none, none, 1, "active", none, none, none, none⟩]).2.2.1
    ⟨1, 0, none, none, none, none, none, 1, "active", none, none, none, none⟩
    (by decide)
    (by
      simp only [decayStep, time_decay_score]
      split
      · rfl
      · rename_i hc
        exfalso
        apply hc
        norm_num)

theorem truncateLoop_is_take (mc : Option Nat) (bs : List (String × String)) :
    ∀ len : Nat, ∃ n, truncateLoop mc len bs = bs.take n := by
  induction bs with
  | nil => intro len; exact ⟨0, rfl⟩
  | cons b rest ih =>
    intro len
    obtain ⟨name, block⟩ := b
    simp only [truncateLoop]
    split
    · exact ⟨0, rfl⟩
    · obtain ⟨n, hn⟩ := ih (len + (block.length + 1))
      exact ⟨n + 1, by rw [hn, List.take_succ_cons]⟩

/-- C9: the tiered context string is the header followed by a prefix of the
ordered sequence of complete per-category blocks; truncation by `max_chars`
only drops whole blocks from the tail, never cutting inside a block. -/
theorem tiered_context_whole_blocks (sortedNames : List String)
    (categories : List CategoryE) (items : List ItemE)
    (mipc : Nat) (max_chars : Option Nat) (h : sortedNames ≠ []) :
    ∃ n, get_tiered_context sortedNames categories items mipc max_chars =
      String.intercalate "\n" ("## User Memory Context\n" ::
        ((contextBlocks sortedNames categories items mipc).take n).map Prod.snd) := by
  obtain ⟨n, hn⟩ := truncateLoop_is_take max_chars
    (contextBlocks sortedNames categories items mipc)
    ("## User Memory Context\n".length)
  refine ⟨n, ?_⟩
  have hne : sortedNames.isEmpty = false := by
    cases sortedNames with
    | nil => exact absurd rfl h
    | cons a t => rfl
  simp only [get_tiered_context, hne, Bool.false_eq_true, if_false]
  rw [hn]

/-- Witness for C9: two categories of one item each, with a `max_chars` budget
that admits only the first block. -/
theorem tiered_context_whole_blocks_witness :
    (["facts", "goals"] : List String) ≠ [] ∧
    ∃ n, get_tiered_context ["facts", "goals"] []
        [⟨1, 0, none, some "a", some "p", some "b", some "facts", 1, "active",
          none, some "a", some "b", none⟩,
         ⟨2, 0, none, some "c", some "q", some "d", some "goals", 1, "active",
          none, some "c", some "d", none⟩] 10 (some 60) =
      String.intercalate "\n" ("## User Memory Context\n" ::
        ((contextBlocks ["facts", "goals"] []
          [⟨1, 0, none, some "a", some "p", some "b", some "facts", 1, "active",
            none, some "a", some "b", none⟩,
           ⟨2, 0, none, some "c", some "q", some "d", some "goals", 1, "active",
            none, some "c", some "d", none⟩] 10).take n).map Prod.snd) :=
  ⟨by decide,
   tiered_context_whole_blocks ["facts", "goals"] []
     [⟨1, 0, none, some "a", some "p", some "b", some "facts", 1, "active",
       none, some "a", some "b", none⟩,
      ⟨2, 0, none, some "c", some "q", some "d", some "goals", 1, "active",
       none, some "c", some "d", none⟩] 10 (some 60) (by decide)⟩

theorem item_get_map_pres {f : ItemE → ItemE} (hf : ∀ i, (f i).id = i.id)
    (items : List ItemE) (iid : Nat) :
    item_get (items.map f) iid = (item_get items iid).map f := by
  unfold item_get
  rw [List.find?_map]
  have hp : ((fun i : ItemE => i.id == iid) ∘ f) = (fun i : ItemE => i.id == iid) := by
    funext i
    simp [Function.comp, hf]
  rw [hp]

theorem item_get_id {items : List ItemE} {iid : Nat} {i : ItemE}
    (h : item_get items iid = some i) : i.id = iid := by
  have := List.find?_some h
  simpa using this

theorem resolve_conflict_spec (items : List ItemE) (newId oldId : Nat)
    (oldItem newItem : ItemE)
    (hold : item_get items oldId = some oldItem)
    (hnew : item_get items newId = some newItem)
    (hne : oldId ≠ newId) :
    item_get (resolve_conflict items newId oldId) oldId
        = some { oldItem with status := "archived" } ∧
    item_get (resolve_conflict items newId oldId) newId
        = some { newItem with supersedes := some oldId } := by
  have hou : oldItem.id = oldId := item_get_id hold
  have hnu : newItem.id = newId := item_get_id hnew
  have hrc : resolve_conflict items newId oldId
      = item_update (item_update_status items oldId "archived")
          { newItem with supersedes := some oldId } := by
    unfold resolve_conflict
    rw [hold, hnew]
  have hf : ∀ i : ItemE,
      ((fun i : ItemE => if i.id == ({ newItem with supersedes := some oldId } : ItemE).id then
        { i with
          subject := newItem.subject,
          predicate := newItem.predicate,
          object := newItem.object,
          category := newItem.category,
          confidence := newItem.confidence,
          status := newItem.status,
          supersedes := some oldId,
          canonical_subject := newItem.canonical_subject,
          canonical_object := newItem.canonical_object }
      else i) i).id = i.id := by
    intro i
    dsimp only
    split <;> rfl
  have hg : ∀ i : ItemE,
      ((fun i : ItemE => if i.id == oldId then { i with status := "archived" } else i) i).id
        = i.id := by
    intro i
    dsimp only
    split <;> rfl
  rw [hrc]
  unfold item_update item_update_status
  rw [item_get_map_pres hf, item_get_map_pres hg, item_get_map_pres hf,
    item_get_map_pres hg, hold, hnew]
  constructor
  · simp [hou, hnu, hne, Ne.symm hne]
  · simp [hou, hnu, hne, Ne.symm hne]

/-- C3 (amended): with strategy `recency` the strictly newer item wins and on
equal `created_at` the existing (conflicting) item wins; with strategy
`confidence` the higher-confidence item wins and on a tie the new item wins;
in each resolution the loser's status becomes `archived` and the winner's
`supersedes` is set to the loser's id. -/
theorem auto_resolve_conflicts_winner
    (items : List ItemE) (itemId : Nat) (item conflict : ItemE)
    (hget : item_get items itemId = some item)
    (hcget : item_get items conflict.id = some conflict)
    (hconfl : find_conflicts items itemId = [conflict])
    (hne : conflict.id ≠ itemId)
    (strategy : String)
    (hs : strategy = "recency" ∨ strategy = "confidence") :
    if (if strategy = "recency" then conflict.created_at < item.created_at
        else conflict.confidence ≤ item.confidence) then
      item_get (auto_resolve_conflicts items itemId strategy).1 conflict.id
          = some { conflict with status := "archived" } ∧
      item_get (auto_resolve_conflicts items itemId strategy).1 itemId
          = some { item with supersedes := some conflict.id }
    else
      item_get (auto_resolve_conflicts items itemId strategy).1 itemId
          = some { item with status := "archived" } ∧
      item_get (auto_resolve_conflicts items itemId strategy).1 conflict.id
          = some { conflict with supersedes := some itemId } := by
  rcases hs with h | h <;> subst h
  · by_cases hcmp : conflict.created_at < item.created_at
    · rw [if_pos (by rw [if_pos rfl]; exact hcmp)]
      have hfold : (auto_resolve_conflicts items itemId "recency").1
          = resolve_conflict items itemId conflict.id := by
        unfold auto_resolve_conflicts
        rw [hget, hconfl]
        simp [hcmp]
      rw [hfold]
      exact resolve_conflict_spec items itemId conflict.id conflict item hcget hget hne
    · rw [if_neg (by rw [if_pos rfl]; exact hcmp)]
      have hfold : (auto_resolve_conflicts items itemId "recency").1
          = resolve_conflict items conflict.id itemId := by
        unfold auto_resolve_conflicts
        rw [hget, hconfl]
        simp [hcmp]
      rw [hfold]
      exact resolve_conflict_spec items conflict.id itemId item conflict hget hcget
        (Ne.symm hne)
  · by_cases hcmp : conflict.confidence ≤ item.confidence
    · rw [if_pos (by rw [if_neg (by decide)]; exact hcmp)]
      have hfold : (auto_resolve_conflicts items itemId "confidence").1
          = resolve_conflict items itemId conflict.id := by
        unfold auto_resolve_conflicts
        rw [hget, hconfl]
        simp [hcmp]
      rw [hfold]
      exact resolve_conflict_spec items itemId conflict.id conflict item hcget hget hne
    · rw [if_neg (by rw [if_neg (by decide)]; exact hcmp)]
      have hfold : (auto_resolve_conflicts items itemId "confidence").1
          = resolve_conflict items conflict.id itemId := by
        unfold auto_resolve_conflicts
        rw [hget, hconfl]
        simp [hcmp]
      rw [hfold]
      exact resolve_conflict_spec items conflict.id itemId item conflict hget hcget
        (Ne.symm hne)

/-- Counterexample for C3 as stated: on a `created_at` tie under strategy
`recency` the NEW item (id 2) is archived and the OLD item (id 1) survives
with `supersedes` pointing at it — the claim says the new item wins. -/
theorem auto_resolve_recency_tie_counterexample :
    (item_get (auto_resolve_conflicts
        [mkFact 1 5 "alice" "likes" "python" 1, mkFact 2 5 "alice" "likes" "rust" 1]
        2 "recency").1 2).map ItemE.status = some "archived" ∧
    (item_get (auto_resolve_conflicts
        [mkFact 1 5 "alice" "likes" "python" 1, mkFact 2 5 "alice" "likes" "rust" 1]
        2 "recency").1 1).map ItemE.supersedes = some (some 2) := by
  constructor <;> decide

/-- Witness for C3 (amended), strategy `recency` with a strictly newer item:
the old item (id 1) is archived and the new item (id 2) supersedes it. -/
theorem auto_resolve_conflicts_winner_witness :
    item_get (auto_resolve_conflicts
        [mkFact 1 0 "alice" "likes" "python" 1, mkFact 2 7 "alice" "likes" "rust" 1]
        2 "recency").1 1
      = some { mkFact 1 0 "alice" "likes" "python" 1 with status := "archived" } ∧
    item_get (auto_resolve_conflicts
        [mkFact 1 0 "alice" "likes" "python" 1, mkFact 2 7 "alice" "likes" "rust" 1]
        2 "recency").1 2
      = some { mkFact 2 7 "alice" "likes" "rust" 1 with supersedes := some 1 } := by
  have h := auto_resolve_conflicts_winner
    [mkFact 1 0 "alice" "likes" "python" 1, mkFact 2 7 "alice" "likes" "rust" 1]
    2 (mkFact 2 7 "alice" "likes" "rust" 1) (mkFact 1 0 "alice" "likes" "python" 1)
    (by decide) (by decide) (by decide) (by decide) "recency" (Or.inl rfl)
  rw [if_pos (by rw [if_pos rfl]; decide)] at h
  exact ⟨h.1, h.2⟩

/-- C1 (amended): `POST /v2/items` runs no conflict or duplicate check: it
appends one new active item (with `supersedes` unset and canonical forms
resolved at create time) and leaves every existing item untouched, so the
active count of the new item's triple grows and pre-existing active
duplicates stay active. -/
theorem create_item_v2_appends_active (items : List ItemE) (edges : List GraphEdgeE)
    (req : CreateItemRequest) (newId : Nat) (now : Int) (edgeId : Nat) :
    ∃ newRow : ItemE,
      (create_item_v2 items edges req newId now edgeId).1 = items ++ [newRow] ∧
      newRow.status = "active" ∧
      newRow.supersedes = none ∧
      newRow.canonical_subject
        = (if req.subject ≠ "" then some (resolve_entity req.subject) else none) ∧
      newRow.canonical_object
        = (if req.object ≠ "" then some (resolve_entity req.object) else none) ∧
      newRow.predicate = some req.predicate ∧
      ∀ s p o, activeCountForTriple (create_item_v2 items edges req newId now edgeId).1 s p o
        = activeCountForTriple items s p o + activeCountForTriple [newRow] s p o := by
  refine ⟨{
    id := newId,
    created_at := now,
    resource_id := none,
    subject := some req.subject,
    predicate := some req.predicate,
    object := some req.object,
    category := req.category,
    confidence := req.confidence,
    status := "active",
    supersedes := none,
    canonical_subject := if req.subject ≠ "" then some (resolve_entity req.subject) else none,
    canonical_object := if req.object ≠ "" then some (resolve_entity req.object) else none,
    meta_about := none }, rfl, rfl, rfl, rfl, rfl, rfl, ?_⟩
  intro s p o
  unfold activeCountForTriple
  rw [show (create_item_v2 items edges req newId now edgeId).1 = items ++ [{
    id := newId,
    created_at := now,
    resource_id := none,
    subject := some req.subject,
    predicate := some req.predicate,
    object := some req.object,
    category := req.category,
    confidence := req.confidence,
    status := "active",
    supersedes := none,
    canonical_subject := if req.subject ≠ "" then some (resolve_entity req.subject) else none,
    canonical_object := if req.object ≠ "" then some (resolve_entity req.object) else none,
    meta_about := none }] from rfl]
  rw [List.filter_append, List.length_append]

/-- Counterexample for C1 as stated: creating the same fact twice through
`POST /v2/items` leaves two active items for the triple
`(alice, likes, python)` — the duplicate is neither archived nor linked by
`supersedes`, so item creation does not preserve the invariant. -/
theorem create_item_v2_duplicate_counterexample :
    activeCountForTriple
      (create_item_v2
        (create_item_v2 [] [] ⟨"Alice", "likes", "Python", none, 1⟩ 1 0 101).1
        (create_item_v2 [] [] ⟨"Alice", "likes", "Python", none, 1⟩ 1 0 101).2
        ⟨"Alice", "likes", "Python", none, 1⟩ 2 0 102).1
      (some "alice") (some "likes") (some "python") = 2 ∧
    ¬ atMostOneActivePerTriple
      (create_item_v2
        (create_item_v2 [] [] ⟨"Alice", "likes", "Python", none, 1⟩ 1 0 101).1
        (create_item_v2 [] [] ⟨"Alice", "likes", "Python", none, 1⟩ 1 0 101).2
        ⟨"Alice", "likes", "Python", none, 1⟩ 2 0 102).1 := by
  have hc : activeCountForTriple
      (create_item_v2
        (create_item_v2 [] [] ⟨"Alice", "likes", "Python", none, 1⟩ 1 0 101).1
        (create_item_v2 [] [] ⟨"Alice", "likes", "Python", none, 1⟩ 1 0 101).2
        ⟨"Alice", "likes", "Python", none, 1⟩ 2 0 102).1
      (some "alice") (some "likes") (some "python") = 2 := by decide
  refine ⟨hc, fun h => ?_⟩
  have h2 := h (some "alice") (some "likes") (some "python")
  rw [hc] at h2
  omega

theorem propagate_fold_sum (items : List ItemE) (ns : List (String × ℚ × Nat)) :
    ∀ init : ℚ × ℚ,
      ns.foldl
        (fun (acc : ℚ × ℚ) nwd =>
          match entity_confidence items nwd.1 with
          | none => acc
          | some ec =>
            let w := nwd.2.1 * DISTANCE_DISCOUNT nwd.2.2
            (acc.1 + ec * w, acc.2 + w))
        init
      = (init.1 + (ns.map (fun nwd =>
            match entity_confidence items nwd.1 with
            | none => 0
            | some ec => ec * (nwd.2.1 * DISTANCE_DISCOUNT nwd.2.2))).sum,
         init.2 + (ns.map (fun nwd =>
            match entity_confidence items nwd.1 with
            | none => 0
            | some _ => nwd.2.1 * DISTANCE_DISCOUNT nwd.2.2)).sum) := by
  induction ns with
  | nil => intro init; simp
  | cons nwd rest ih =>
    intro init
    rw [List.foldl_cons, List.map_cons, List.map_cons, List.sum_cons, List.sum_cons]
    cases hec : entity_confidence items nwd.1 with
    | none => rw [ih]; simp [hec]
    | some ec =>
      rw [ih]
      simp only [hec]
      rw [Prod.mk.injEq]
      constructor <;> ring

/-- C4: confidence propagation updates an item with canonical key `k` (non-meta,
with graph neighbors whose combined discounted weight is nonzero) to
`old·(1−0.15) + signal·0.15` clamped to `[0.1, 1.0]`, where `signal` is the
edge-weight-and-distance-discounted average of neighbor entity confidences
(discount 1.0 at distance 1, 0.5 at distance 2), writing back only when
`|new − old| ≥ 0.01`; consequently item `alpha` (confidence 0.3) whose only
neighbor entity `beta` has confidence 0.9 moves to 0.39: it strictly
increases yet stays below 0.9. -/
theorem propagate_confidence_update :
    (∀ (items : List ItemE) (edges : List GraphEdgeE) (item : ItemE) (k : String),
      item.meta_about = none →
      effectiveKey item = some k →
      adjacencyAt edges k ≠ [] →
      (propTotalWeight items (adjacencyAt edges k) ≠ 0 →
        propagateItem items edges item =
          (if |propClamped items (adjacencyAt edges k) item.confidence
              - item.confidence| < 1/100 then item
           else { item with
             confidence := propClamped items (adjacencyAt edges k) item.confidence })) ∧
      (propTotalWeight items (adjacencyAt edges k) = 0 →
        propagateItem items edges item = item)) ∧
    ((item_get (propagate_confidence
        [mkFact 1 0 "alpha" "rel" "beta" (3/10), mkFact 2 0 "beta" "is" "gamma" (9/10)]
        [⟨10, "alpha", "rel", "beta", 1, 0⟩]).1 1).map ItemE.confidence
      = some (39/100) ∧ (3/10 : ℚ) < 39/100 ∧ (39 : ℚ)/100 < 9/10) := by
  constructor
  · intro items edges item k hmeta hkey hadj
    have hmb : (item.meta_about != none) = false := by simp [hmeta]
    have hne : (adjacencyAt edges k).isEmpty = false := by
      cases h : adjacencyAt edges k with
      | nil => exact absurd h hadj
      | cons a t => rfl
    constructor
    · intro htw
      unfold propTotalWeight at htw
      simp only [propagateItem, hmb, Bool.false_eq_true, if_false, hkey, hne,
        propagate_fold_sum items (adjacencyAt edges k) (0, 0), zero_add]
      rw [if_neg htw]
      unfold propClamped propWeightedSum propTotalWeight
      rfl
    · intro htw0
      unfold propTotalWeight at htw0
      simp only [propagateItem, hmb, Bool.false_eq_true, if_false, hkey, hne,
        propagate_fold_sum items (adjacencyAt edges k) (0, 0), zero_add]
      rw [if_pos htw0]
  · refine ⟨?_, by norm_num, by norm_num⟩
    have hadj : adjacencyAt [⟨10, "alpha", "rel", "beta", 1, 0⟩] "alpha"
        = [("beta", 1, 1)] := by decide
    have h1 : propagateItem
        [mkFact 1 0 "alpha" "rel" "beta" (3/10), mkFact 2 0 "beta" "is" "gamma" (9/10)]
        [⟨10, "alpha", "rel", "beta", 1, 0⟩] (mkFact 1 0 "alpha" "rel" "beta" (3/10))
        = { mkFact 1 0 "alpha" "rel" "beta" (3/10) with confidence := 39/100 } := by
      have hkey1 : effectiveKey (mkFact 1 0 "alpha" "rel" "beta" (3/10))
          = some "alpha" := by decide
      have hpA : ((mkFact 1 0 "alpha" "rel" "beta" (3/10)).meta_about == none &&
          effectiveKey (mkFact 1 0 "alpha" "rel" "beta" (3/10)) == some "beta") = false := by
        decide
      have hpB : ((mkFact 2 0 "beta" "is" "gamma" (9/10)).meta_about == none &&
          effectiveKey (mkFact 2 0 "beta" "is" "gamma" (9/10)) == some "beta") = true := by
        decide
      have hec : entity_confidence
          [mkFact 1 0 "alpha" "rel" "beta" (3/10), mkFact 2 0 "beta" "is" "gamma" (9/10)]
          "beta" = some (9/10) := by
        simp only [entity_confidence, List.filter_cons, List.filter_nil, hpA, hpB,
          Bool.false_eq_true, if_false, if_true]
        norm_num [mkFact]
      simp only [propagateItem, hkey1, hadj, List.foldl_cons, List.foldl_nil, hec,
        DISTANCE_DISCOUNT]
      norm_num [mkFact, abs_sub_lt_iff, max_def, min_def]
      rw [abs_of_nonneg] <;> norm_num
    have hmap : (propagate_confidence
        [mkFact 1 0 "alpha" "rel" "beta" (3/10), mkFact 2 0 "beta" "is" "gamma" (9/10)]
        [⟨10, "alpha", "rel", "beta", 1, 0⟩]).1
        = [propagateItem
            [mkFact 1 0 "alpha" "rel" "beta" (3/10), mkFact 2 0 "beta" "is" "gamma" (9/10)]
            [⟨10, "alpha", "rel", "beta", 1, 0⟩] (mkFact 1 0 "alpha" "rel" "beta" (3/10)),
           propagateItem
            [mkFact 1 0 "alpha" "rel" "beta" (3/10), mkFact 2 0 "beta" "is" "gamma" (9/10)]
            [⟨10, "alpha", "rel", "beta", 1, 0⟩] (mkFact 2 0 "beta" "is" "gamma" (9/10))] := by
      rfl
    rw [hmap, h1]
    simp [item_get, mkFact]

/-- Witness for C4: a concrete item whose only graph neighbor has no items, so
the combined discounted weight is zero and the item is left unchanged. -/
theorem propagate_confidence_update_witness :
    propagateItem [mkFact 1 0 "alpha" "rel" "beta" (3/10)]
      [⟨10, "alpha", "rel", "beta", 1, 0⟩] (mkFact 1 0 "alpha" "rel" "beta" (3/10))
    = mkFact 1 0 "alpha" "rel" "beta" (3/10) :=
  (propagate_confidence_update.1 [mkFact 1 0 "alpha" "rel" "beta" (3/10)]
    [⟨10, "alpha", "rel", "beta", 1, 0⟩] (mkFact 1 0 "alpha" "rel" "beta" (3/10))
    "alpha" (by decide) (by decide) (by decide)).2
    (by simp [propTotalWeight,
      (by decide : adjacencyAt [(⟨10, "alpha", "rel", "beta", 1, 0⟩ : GraphEdgeE)]
        "alpha" = [("beta", 1, 1)]),
      (by decide : entity_confidence [mkFact 1 0 "alpha" "rel" "beta" (3/10)] "beta"
        = none)])

theorem nodup_append_singleton {α : Type} {l : List α} {x : α}
    (h1 : l.Nodup) (h2 : x ∉ l) : (l ++ [x]).Nodup := by
  rw [List.nodup_append]
  refine ⟨h1, List.nodup_singleton x, ?_⟩
  intro a ha hax
  rw [List.mem_singleton] at hax
  subst hax
  exact h2 ha

theorem processEdge_inv (source : String) (maxDepth : Nat) (entry : BfsEntry)
    (hentry : bfsEntryInv source entry)
    (hdepth : entry.hops.length - 1 < maxDepth)
    (st : List GraphPathE × List BfsEntry × List (String × String × String))
    (hpaths : ∀ p ∈ st.1, graphPathInv source maxDepth p)
    (hentries : ∀ e ∈ st.2.1, bfsEntryInv source e)
    (edge : GraphEdgeE) :
    (∀ p ∈ (processEdge source maxDepth entry st edge).1, graphPathInv source maxDepth p) ∧
    (∀ e ∈ (processEdge source maxDepth entry st edge).2.1, bfsEntryInv source e) := by
  obtain ⟨paths, entries, visited⟩ := st
  obtain ⟨hne, hhead, hnodup, hlen, hw⟩ := hentry
  have hlenpos : 1 ≤ entry.hops.length := List.length_pos.mpr hne
  unfold processEdge
  dsimp only at hpaths hentries ⊢
  by_cases hvis : visited.contains (edge.subject, edge.predicate, edge.object)
  · rw [if_pos hvis]
    exact ⟨hpaths, hentries⟩
  · rw [if_neg hvis]
    set nextEntity := if edge.subject == entry.entity then edge.object else edge.subject with hnext
    by_cases hcyc : entry.hops.contains nextEntity
    · rw [if_pos hcyc]
      exact ⟨hpaths, hentries⟩
    · rw [if_neg hcyc]
      have hnotmem : nextEntity ∉ entry.hops := by
        intro hmem
        exact hcyc (List.elem_eq_true_of_mem hmem)
      have hnodup' : (entry.hops ++ [nextEntity]).Nodup :=
        nodup_append_singleton hnodup hnotmem
      have hhead' : (entry.hops ++ [nextEntity]).head? = some source := by
        rw [List.head?_append, hhead]
        rfl
      have hlen' : (entry.pathEdges ++ [edge]).length + 1
          = (entry.hops ++ [nextEntity]).length := by
        simp only [List.length_append, List.length_singleton]
        omega
      have hw' : entry.weight * edge.weight
          = ((entry.pathEdges ++ [edge]).map (fun ed => ed.weight)).prod := by
        rw [List.map_append, List.prod_append, hw]
        simp
      have hdist : (entry.pathEdges ++ [edge]).length ≤ maxDepth := by
        simp only [List.length_append, List.length_singleton]
        omega
      constructor
      · intro p hp
        rw [List.mem_append] at hp
        rcases hp with hp | hp
        · exact hpaths p hp
        · rw [List.mem_singleton] at hp
          subst hp
          exact ⟨hhead', hnodup', hlen', hw', rfl, hdist⟩
      · intro e he
        by_cases hd2 : (entry.hops ++ [nextEntity]).length - 1 < maxDepth
        · rw [if_pos hd2] at he
          rw [List.mem_append] at he
          rcases he with he | he
          · exact hentries e he
          · rw [List.mem_singleton] at he
            subst he
            refine ⟨by simp, hhead', hnodup', hlen', hw'⟩
        · rw [if_neg hd2] at he
          exact hentries e he

theorem processFold_inv (source : String) (maxDepth : Nat) (entry : BfsEntry)
    (hentry : bfsEntryInv source entry)
    (hdepth : entry.hops.length - 1 < maxDepth)
    (neighbors : List GraphEdgeE) :
    ∀ (st : List GraphPathE × List BfsEntry × List (String × String × String)),
      (∀ p ∈ st.1, graphPathInv source maxDepth p) →
      (∀ e ∈ st.2.1, bfsEntryInv source e) →
      (∀ p ∈ (neighbors.foldl (processEdge source maxDepth entry) st).1,
        graphPathInv source maxDepth p) ∧
      (∀ e ∈ (neighbors.foldl (processEdge source maxDepth entry) st).2.1,
        bfsEntryInv source e) := by
  induction neighbors with
  | nil => intro st h1 h2; exact ⟨h1, h2⟩
  | cons edge rest ih =>
    intro st h1 h2
    rw [List.foldl_cons]
    have hstep := processEdge_inv source maxDepth entry hentry hdepth st h1 h2 edge
    exact ih _ hstep.1 hstep.2

theorem findPathsLoop_inv (edges : List GraphEdgeE) (source : String) (maxDepth : Nat) :
    ∀ (fuel : Nat) (queue : List BfsEntry)
      (visited : List (String × String × String)) (paths : List GraphPathE),
      (∀ e ∈ queue, bfsEntryInv source e) →
      (∀ p ∈ paths, graphPathInv source maxDepth p) →
      ∀ p ∈ findPathsLoop edges source maxDepth fuel queue visited paths,
        graphPathInv source maxDepth p := by
  intro fuel
  induction fuel with
  | zero => intro queue visited paths _ hpaths p hp; exact hpaths p hp
  | succ fuel ih =>
    intro queue visited paths hqueue hpaths p hp
    cases queue with
    | nil => exact hpaths p hp
    | cons entry rest =>
      rw [findPathsLoop] at hp
      split at hp
      · exact ih rest visited paths
          (fun e he => hqueue e (List.mem_cons_of_mem _ he)) hpaths p hp
      · rename_i hdepth
        have hentry := hqueue entry (List.mem_cons_self _ _)
        have hfold := processFold_inv source maxDepth entry hentry
          (by omega) (pathNeighbors edges entry.entity)
          (paths, [], visited) hpaths (by intro e he; simp at he)
        set st := List.foldl (processEdge source maxDepth entry) (paths, [], visited)
          (pathNeighbors edges entry.entity) with hst
        refine ih (rest ++ st.2.1) st.2.2 st.1 ?_ hfold.1 p hp
        intro e he
        rw [List.mem_append] at he
        rcases he with he | he
        · exact hqueue e (List.mem_cons_of_mem _ he)
        · exact hfold.2 e he

/-- C5: every path returned by `find_paths` starts at the source, repeats no
entity, has one fewer edge than hops, multiplies the edge weights into
`weight`, and is at most `min max_depth 3` edges long; a call with
`max_depth = 4` returns exactly the paths of `max_depth = 3`. -/
theorem find_paths_path_properties :
    (∀ (edges : List GraphEdgeE) (source : String) (target : Option String)
        (max_depth max_paths : Nat),
      ∀ p ∈ find_paths edges source target max_depth max_paths,
        p.hops.head? = some source ∧ p.hops.Nodup ∧
        p.edges.length + 1 = p.hops.length ∧
        p.weight = (p.edges.map (fun e => e.weight)).prod ∧
        p.distance = p.edges.length ∧ p.distance ≤ min max_depth 3) ∧
    (∀ (edges : List GraphEdgeE) (source : String) (target : Option String)
        (max_paths : Nat),
      find_paths edges source target 4 max_paths
        = find_paths edges source target 3 max_paths) := by
  constructor
  · intro edges source target max_depth max_paths p hp
    have hmem : p ∈ findPathsLoop edges source (min max_depth 3) (edges.length + 1)
        [⟨source, [source], [], 1⟩] [] [] := by
      unfold find_paths at hp
      have h1 := List.take_subset max_paths _ hp
      have h2 : p ∈ sortPathsByWeightDesc (findPathsLoop edges source (min max_depth 3)
          (edges.length + 1) [⟨source, [source], [], 1⟩] [] []) := by
        cases target with
        | none => exact h1
        | some t => exact List.mem_of_mem_filter h1
      rw [sortPathsByWeightDesc, List.mem_insertionSort] at h2
      exact h2
    exact findPathsLoop_inv edges source (min max_depth 3) (edges.length + 1)
      [⟨source, [source], [], 1⟩] [] []
      (by
        intro e he
        rw [List.mem_singleton] at he
        subst he
        exact ⟨by simp, rfl, List.nodup_singleton _, rfl, rfl⟩)
      (by intro q hq; simp at hq)
      p hmem
  · intro edges source target max_paths
    rfl

/-- Witness for C5: the one path of a single-edge graph satisfies all the
invariants. -/
theorem find_paths_path_properties_witness :
    (⟨"a", "b", [⟨1, "a", "p", "b", 1, 0⟩], ["a", "b"], 1, 1 * 1⟩ : GraphPathE)
      ∈ find_paths [⟨1, "a", "p", "b", 1, 0⟩] "a" none 2 20 ∧
    ((⟨"a", "b", [⟨1, "a", "p", "b", 1, 0⟩], ["a", "b"], 1, 1 * 1⟩ :
        GraphPathE).hops.head? = some "a" ∧
      (⟨"a", "b", [⟨1, "a", "p", "b", 1, 0⟩], ["a", "b"], 1, 1 * 1⟩ :
        GraphPathE).hops.Nodup ∧
      (⟨"a", "b", [⟨1, "a", "p", "b", 1, 0⟩], ["a", "b"], 1, 1 * 1⟩ :
        GraphPathE).edges.length + 1
        = (⟨"a", "b", [⟨1, "a", "p", "b", 1, 0⟩], ["a", "b"], 1, 1 * 1⟩ :
        GraphPathE).hops.length ∧
      (⟨"a", "b", [⟨1, "a", "p", "b", 1, 0⟩], ["a", "b"], 1, 1 * 1⟩ :
        GraphPathE).weight
        = ((⟨"a", "b", [⟨1, "a", "p", "b", 1, 0⟩], ["a", "b"], 1, 1 * 1⟩ :
        GraphPathE).edges.map (fun e => e.weight)).prod ∧
      (⟨"a", "b", [⟨1, "a", "p", "b", 1, 0⟩], ["a", "b"], 1, 1 * 1⟩ :
        GraphPathE).distance
        = (⟨"a", "b", [⟨1, "a", "p", "b", 1, 0⟩], ["a", "b"], 1, 1 * 1⟩ :
        GraphPathE).edges.length ∧
      (⟨"a", "b", [⟨1, "a", "p", "b", 1, 0⟩], ["a", "b"], 1, 1 * 1⟩ :
        GraphPathE).distance ≤ min 2 3) := by
  have hfp : find_paths [⟨1, "a", "p", "b", 1, 0⟩] "a" none 2 20
      = [⟨"a", "b", [⟨1, "a", "p", "b", 1, 0⟩], ["a", "b"], 1, 1 * 1⟩] := rfl
  have hmem : (⟨"a", "b", [⟨1, "a", "p", "b", 1, 0⟩], ["a", "b"], 1, 1 * 1⟩ : GraphPathE)
      ∈ find_paths [⟨1, "a", "p", "b", 1, 0⟩] "a" none 2 20 := by
    rw [hfp]
    exact List.mem_singleton.mpr rfl
  exact ⟨hmem, find_paths_path_properties.1 [⟨1, "a", "p", "b", 1, 0⟩] "a" none 2 20
    _ hmem⟩

theorem collectItems_inv (category : Option String) (sim : ℚ) (its : List ItemE) :
    ∀ acc, collectInv acc →
      collectInv (collectItems category sim its acc) ∧
      (∀ r ∈ (collectItems category sim its acc).1, r ∈ acc.1 ∨ r.similarity = sim) := by
  induction its with
  | nil =>
    intro acc hacc
    exact ⟨hacc, fun r hr => Or.inl hr⟩
  | cons item rest ih =>
    intro acc hacc
    rw [collectItems, List.foldl_cons]
    by_cases hcond : (!acc.2.contains item.id &&
        (!pyTruthy category || item.category == category)) = true
    · rw [if_pos hcond]
      have hninseen : item.id ∉ acc.2 := by
        intro hmem
        rw [Bool.and_eq_true] at hcond
        have := hcond.1
        rw [Bool.not_eq_eq_eq_not] at this
        simp at this
        exact this hmem
      have hacc' : collectInv (acc.1 ++ [item_to_dict item sim], acc.2 ++ [item.id]) := by
        constructor
        · rw [List.map_append]
          apply nodup_append_singleton hacc.1
          intro hmem
          obtain ⟨r, hr, hrid⟩ := List.mem_map.mp hmem
          have hrid' : r.id = item.id := hrid
          exact hninseen (hrid' ▸ hacc.2 r hr)
        · intro r hr
          rw [List.mem_append] at hr
          rcases hr with hr | hr
          · exact List.mem_append_left _ (hacc.2 r hr)
          · rw [List.mem_singleton] at hr
            subst hr
            exact List.mem_append_right _ (List.mem_singleton.mpr rfl)
      have hrest := ih _ hacc'
      rw [collectItems] at hrest
      refine ⟨hrest.1, ?_⟩
      intro r hr
      rcases hrest.2 r hr with hr2 | hr2
      · rw [List.mem_append] at hr2
        rcases hr2 with hr2 | hr2
        · exact Or.inl hr2
        · rw [List.mem_singleton] at hr2
          subst hr2
          exact Or.inr rfl
      · exact Or.inr hr2
    · rw [if_neg hcond]
      have hrest := ih _ hacc
      rw [collectItems] at hrest
      exact hrest

theorem edgeFold_inv (items : List ItemE) (category : Option String) :
    ∀ (edgesL : List GraphEdgeE) (acc), collectInv acc →
      collectInv (edgesL.foldl
        (fun acc edge =>
          collectItems category (8/10) (list_by_subject items edge.object "active")
            (collectItems category (9/10) (list_by_subject items edge.subject "active") acc))
        acc) ∧
      (∀ r ∈ (edgesL.foldl
        (fun acc edge =>
          collectItems category (8/10) (list_by_subject items edge.object "active")
            (collectItems category (9/10) (list_by_subject items edge.subject "active") acc))
        acc).1, r ∈ acc.1 ∨ r.similarity = 9/10 ∨ r.similarity = 8/10) := by
  intro edgesL
  induction edgesL with
  | nil => intro acc hacc; exact ⟨hacc, fun r hr => Or.inl hr⟩
  | cons edge rest ih =>
    intro acc hacc
    rw [List.foldl_cons]
    have h9 := collectItems_inv category (9/10)
      (list_by_subject items edge.subject "active") acc hacc
    have h8 := collectItems_inv category (8/10)
      (list_by_subject items edge.object "active") _ h9.1
    have hrest := ih _ h8.1
    refine ⟨hrest.1, ?_⟩
    intro r hr
    rcases hrest.2 r hr with hr2 | hr2
    · rcases h8.2 r hr2 with hr3 | hr3
      · rcases h9.2 r hr3 with hr4 | hr4
        · exact Or.inl hr4
        · exact Or.inr (Or.inl hr4)
      · exact Or.inr (Or.inr hr3)
    · exact Or.inr hr2

theorem takeSort_props (l : List SearchResultE) (limit : Nat)
    (hnodup : (l.map (fun r => r.id)).Nodup) :
    (((sortBySimilarityDesc l).take limit).map (fun r => r.id)).Nodup ∧
    ((sortBySimilarityDesc l).take limit).Pairwise
      (fun a b => b.similarity ≤ a.similarity) ∧
    ((sortBySimilarityDesc l).take limit).length ≤ limit ∧
    ∀ r ∈ (sortBySimilarityDesc l).take limit, r ∈ l := by
  have hperm : List.Perm (sortBySimilarityDesc l) l := List.perm_insertionSort _ l
  refine ⟨?_, ?_, ?_, ?_⟩
  · have h1 : ((sortBySimilarityDesc l).map (fun r => r.id)).Nodup :=
      ((hperm.map (fun r => r.id)).nodup_iff).mpr hnodup
    rw [List.map_take]
    exact h1.sublist (List.take_sublist _ _)
  · have hsorted : List.Sorted (fun a b : SearchResultE => b.similarity ≤ a.similarity)
        (sortBySimilarityDesc l) := List.sorted_insertionSort _ l
    exact List.Pairwise.sublist (List.take_sublist _ _) hsorted
  · exact List.length_take_le _ _
  · intro r hr
    have := List.take_subset limit _ hr
    rw [sortBySimilarityDesc, List.mem_insertionSort] at this
    exact this

set_option maxHeartbeats 2000000 in
/-- C2 (amended): `_entity_lookup` deduplicates by item id, sorts by similarity
descending, caps at `limit`, reports `total` as the capped length, and assigns
every similarity from `{1.0, 0.9, 0.8}`; the graph pass is scored first (0.9
subject side, 0.8 object side) and keeps its score for items it collects, so
exact canonical-subject matches receive 1.0 only when not already collected
by the graph pass — in particular, when the resolved entity has no 1-hop
edges, every returned item has similarity 1.0. -/
theorem entity_lookup_scoring :
    ∀ (items : List ItemE) (edges : List GraphEdgeE) (entity : String)
      (category : Option String) (limit : Nat),
      ((entity_lookup items edges entity category limit).items.map
        (fun r => r.id)).Nodup ∧
      (entity_lookup items edges entity category limit).items.Pairwise
        (fun a b => b.similarity ≤ a.similarity) ∧
      (entity_lookup items edges entity category limit).items.length ≤ limit ∧
      (entity_lookup items edges entity category limit).total
        = (entity_lookup items edges entity category limit).items.length ∧
      (∀ r ∈ (entity_lookup items edges entity category limit).items,
        r.similarity = 1 ∨ r.similarity = 9/10 ∨ r.similarity = 8/10) ∧
      ((get_neighbors edges (resolve_entity entity) = []) →
        ∀ r ∈ (entity_lookup items edges entity category limit).items,
          r.similarity = 1) ∧
      (entity_lookup items edges entity category limit).intent = "EntityLookup" := by
  intro items edges entity category limit
  have hG := edgeFold_inv items category (get_neighbors edges (resolve_entity entity))
    ([], []) ⟨by simp, by simp⟩
  obtain ⟨hGinv, hGsim⟩ := hG
  have hF := collectItems_inv category 1
    (list_by_subject items (resolve_entity entity) "active") _ hGinv
  obtain ⟨hFinv, hFsim⟩ := hF
  have hitems : (entity_lookup items edges entity category limit).items
      = (sortBySimilarityDesc (collectItems category 1
          (list_by_subject items (resolve_entity entity) "active")
          ((get_neighbors edges (resolve_entity entity)).foldl
            (fun acc edge =>
              collectItems category (8/10) (list_by_subject items edge.object "active")
                (collectItems category (9/10)
                  (list_by_subject items edge.subject "active") acc))
            ([], []))).1).take limit := rfl
  have htake := takeSort_props _ limit hFinv.1
  refine ⟨?_, ?_, ?_, rfl, ?_, ?_, rfl⟩
  · rw [hitems]; exact htake.1
  · rw [hitems]; exact htake.2.1
  · rw [hitems]; exact htake.2.2.1
  · intro r hr
    rw [hitems] at hr
    have hmem := htake.2.2.2 r hr
    rcases hFsim r hmem with h | h
    · rcases hGsim r h with h2 | h2
      · simp at h2
      · exact Or.inr h2
    · exact Or.inl h
  · intro hempty r hr
    rw [hitems] at hr
    have hmem := htake.2.2.2 r hr
    rw [hempty] at hmem hFsim
    rcases hFsim r hmem with h | h
    · rw [List.foldl_nil] at h
      simp at h
    · exact h

/-- Counterexample for C2 as stated: the single stored item is an exact
canonical-subject match for the query `"alpha"`, yet it is returned with
similarity 0.9, not 1.0, because the subject side of the incident edge
collects it first. -/
theorem entity_lookup_exact_match_not_one_counterexample :
    (entity_lookup [mkFact 1 0 "alpha" "rel" "beta" 1]
        [⟨10, "alpha", "rel", "beta", 1, 0⟩] "alpha" none 10).items
      = [item_to_dict (mkFact 1 0 "alpha" "rel" "beta" 1) (9/10)] ∧
    (mkFact 1 0 "alpha" "rel" "beta" 1).canonical_subject
      = some (resolve_entity "alpha") ∧
    (9 : ℚ)/10 ≠ 1 := by
  refine ⟨rfl, by decide, by norm_num⟩

/-- Witness for C2 (amended) on a graph with no edges: the exact-match item is
returned and the no-edges conjunct of the theorem yields similarity 1.0. -/
theorem entity_lookup_scoring_witness :
    (item_to_dict (mkFact 1 0 "alpha" "rel" "beta" 1) 1).similarity = 1 ∧
    (entity_lookup [mkFact 1 0 "alpha" "rel" "beta" 1] [] "alpha" none 10).items
      = [item_to_dict (mkFact 1 0 "alpha" "rel" "beta" 1) 1] := by
  have heval : (entity_lookup [mkFact 1 0 "alpha" "rel" "beta" 1] [] "alpha" none 10).items
      = [item_to_dict (mkFact 1 0 "alpha" "rel" "beta" 1) 1] := rfl
  have hmem : item_to_dict (mkFact 1 0 "alpha" "rel" "beta" 1) 1
      ∈ (entity_lookup [mkFact 1 0 "alpha" "rel" "beta" 1] [] "alpha" none 10).items := by
    rw [heval]
    exact List.mem_singleton.mpr rfl
  refine ⟨?_, heval⟩
  exact (entity_lookup_scoring [mkFact 1 0 "alpha" "rel" "beta" 1] [] "alpha" none
    10).2.2.2.2.2.1 rfl _ hmem
